import Mathlib

/-!
# Verification of `git-evtag-py` (src/git_evtag_py.py)

A shallow embedding of the checksum accumulator, the `git cat-file --batch`
object channel, the recursive graph walker, the tag-message footer codec and
the verifier of `src/git_evtag_py.py`, together with theorems settling the
frozen claims about that program.

Modelling conventions:
* Python `str` values are modelled as `List Char` (`Str`); Python `bytes`
  as `List Nat` (`Bytes`), one `Nat` per byte.
* `hashlib.sha512` is not modelled bit-for-bit: the hash state is represented
  by the exact stream of bytes fed to it (`ChecksumProcessor.csum`), so two
  digests are equal exactly when the ingested streams are equal (SHA-512 is
  treated as an injective function of its input stream).
* Python exceptions are modelled by `Except`; because the Python accumulator
  object survives an exception raised mid-update, errors carry the
  `ChecksumProcessor` state at the moment of the raise.
* Python whitespace/line-splitting primitives (`str.strip`, `str.split`,
  `str.splitlines`) are modelled for the ASCII whitespace and line-break
  characters (plus the rare unicode line breaks Python recognises).
-/

set_option maxHeartbeats 1000000

namespace GitEvtag

/-- Python `str`, one `Char` per code point. -/
abbrev Str := List Char

/-- Python `bytes`, one `Nat` (0..255) per byte. -/
abbrev Bytes := List Nat

/-- The whitespace characters stripped by Python `str.strip()` /
`str.rstrip()` (ASCII part; the inputs handled by the program are ASCII). -/
def pyIsSpace (c : Char) : Bool :=
  c = ' ' || c = '\t' || c = '\n' || c = '\x0d' || c = '\x0b' || c = '\x0c'

/-- The line-boundary characters of Python `str.splitlines()`. -/
def isLineBreak (c : Char) : Bool :=
  c = '\n' || c = '\x0d' || c = '\x0b' || c = '\x0c' || c = '\x1c' ||
  c = '\x1d' || c = '\x1e' || c = '\x85' || c = '\u2028' || c = '\u2029'

/-- Python `str.lstrip()`. -/
def lstripPy (s : Str) : Str := s.dropWhile pyIsSpace

/-- Python `str.rstrip()` (recursive form: a trailing run of whitespace is
removed). -/
def rstripPy : Str → Str
  | [] => []
  | c :: r =>
    let l := rstripPy r
    if l = [] then (if pyIsSpace c then [] else [c]) else c :: l

/-- Python `str.strip()`. -/
def pyStrip (s : Str) : Str := lstripPy (rstripPy s)

/-- Prepend a character to the first line of a line list (helper for
`splitlinesPy`). -/
def splitHead (c : Char) : List Str → List Str
  | [] => [[c]]
  | l :: ls => (c :: l) :: ls

/-- Python `str.splitlines()`: split at line boundaries, treating `"\r\n"` as
a single boundary, and without a trailing empty line for a trailing
terminator. -/
def splitlinesPy : Str → List Str
  | [] => []
  | c :: r =>
    if c = '\x0d' then
      match r with
      | '\n' :: r2 => [] :: splitlinesPy r2
      | [] => [[]]
      | c2 :: r2 => [] :: splitlinesPy (c2 :: r2)
    else if isLineBreak c then [] :: splitlinesPy r
    else splitHead c (splitlinesPy r)

/-- Python `s.split("\n")`: split at `'\n'` only, keeping empty pieces; the
result is never empty. -/
def pySplitNl : Str → List Str
  | [] => [[]]
  | c :: r => if c = '\n' then [] :: pySplitNl r else splitHead c (pySplitNl r)

/-- Index of the first occurrence of `pat` as a contiguous substring
(Python `str.find` / the leftmost regex literal match). -/
def findSub (pat : Str) : Str → Option Nat
  | [] => if pat = [] then some 0 else none
  | c :: rest =>
    if pat.isPrefixOf (c :: rest) then some 0
    else (findSub pat rest).map (· + 1)

/-- Python `pat in s` substring test. -/
def containsSub (pat s : Str) : Bool := (findSub pat s).isSome

/-- Python `s.split(sep, 1)[1]`: the remainder after the first occurrence of
`sep`; `none` when `sep` does not occur (Python raises `IndexError` there). -/
def pySplitOnceRest (sep s : Str) : Option Str :=
  (findSub sep s).map (fun j => s.drop (j + sep.length))

/-- Python `s.split(None, 1)[0], [1]`: `none` when the result has fewer than
two fields (Python raises `IndexError` on `[1]` there). -/
def splitWhiteOnce (s : Str) : Option (Str × Str) :=
  let s1 := s.dropWhile pyIsSpace
  let tok := s1.takeWhile (fun c => !(pyIsSpace c))
  let rest := (s1.dropWhile (fun c => !(pyIsSpace c))).dropWhile pyIsSpace
  if tok = [] then none
  else if rest = [] then none
  else some (tok, rest)

/-- Python `s.split(None, 2)`: split at whitespace runs, at most three
fields, the third keeping its trailing whitespace. -/
def pySplitWs2 (s : Str) : List Str :=
  let s1 := s.dropWhile pyIsSpace
  if s1 = [] then []
  else
    let t1 := s1.takeWhile (fun c => !(pyIsSpace c))
    let r1 := (s1.dropWhile (fun c => !(pyIsSpace c))).dropWhile pyIsSpace
    if r1 = [] then [t1]
    else
      let t2 := r1.takeWhile (fun c => !(pyIsSpace c))
      let r2 := (r1.dropWhile (fun c => !(pyIsSpace c))).dropWhile pyIsSpace
      if r2 = [] then [t1, t2] else [t1, t2, r2]

/-- Python `bytes.decode("ascii")`: fails on any byte `≥ 128`. -/
def decodeAscii : Bytes → Option Str
  | [] => some []
  | b :: r => if b < 128 then (decodeAscii r).map (fun cs => Char.ofNat b :: cs) else none

/-- Python `int(s)` restricted to the non-negative decimal numerals produced
by `git cat-file` (`int` also accepts signs and underscores, which never
occur in a batch header length field). -/
def parseNatDigits (s : Str) : Option Nat :=
  if s ≠ [] && s.all (fun c => c.isDigit) then
    some (s.foldl (fun n c => n * 10 + (c.toNat - 48)) 0)
  else none

/-- Python `str.encode("ascii")` (the strings encoded by the program are
ASCII, having been produced by an ASCII decode). -/
def strBytes (s : Str) : Bytes := s.map Char.toNat

/-- Lowercase/uppercase hexadecimal digit. -/
def isHexChar (c : Char) : Bool :=
  (('0' ≤ c && c ≤ '9') || ('a' ≤ c && c ≤ 'f') || ('A' ≤ c && c ≤ 'F'))

/-! ## Errors

One constructor per raise site of the Python code. `outOfFuel` is a model
artifact of the fuel-bounded walker recursion and corresponds to no Python
behaviour. -/

inductive Err where
  /-- `ValueError(f"Object {obj_id} not found")` (batch header ` missing`). -/
  | notFound
  /-- `ValueError(f"Malformed header: {header}")` (header not 3 fields). -/
  | malformedHeader
  /-- `ValueError(f"Expected {obj_len} bytes, got ...")` (short read). -/
  | shortRead
  /-- `ValueError("Malformed commit object, expected 'tree <sha>' line")`. -/
  | malformedCommit
  /-- `ValueError(f"Unknown object type: {obj_type}")` (tree entry kind). -/
  | unknownKind
  /-- `KeyError` from `self.stats[kind + "bytes"]` / `self.stats[kind]`. -/
  | keyError
  /-- `ValueError("Object ID must not be None")` (`if not obj_id`). -/
  | emptyId
  /-- `UnicodeDecodeError` from `.decode("ascii")`. -/
  | decodeFail
  /-- `IndexError` from `split(...)[1]` when the split has no second field. -/
  | indexFail
  /-- `ValueError` from `int(str_len)` on a non-numeral. -/
  | intParseFail
  /-- `subprocess.CalledProcessError` (backend process exited non-zero). -/
  | backendProcess
  /-- Fuel exhaustion of the modelled recursion (model artifact only). -/
  | outOfFuel
  deriving DecidableEq, Repr

/-! ## ChecksumProcessor (`class ChecksumProcessor`) -/

/-- State of `ChecksumProcessor`: the per-kind statistics dictionary and the
SHA-512 state, represented by the exact byte stream fed to it. -/
structure ChecksumProcessor where
  stats : List (Str × Nat)
  csum : Bytes
  deriving DecidableEq, Repr

/-- `ChecksumProcessor.__init__`. -/
def ChecksumProcessor.init : ChecksumProcessor :=
  { stats := [("commit".data, 0), ("tree".data, 0), ("blob".data, 0),
              ("commitbytes".data, 0), ("treebytes".data, 0), ("blobbytes".data, 0)],
    csum := [] }

/-- `self.stats[key] += d`: `none` models the `KeyError` on an absent key. -/
def bumpKey : List (Str × Nat) → Str → Nat → Option (List (Str × Nat))
  | [], _, _ => none
  | (k, v) :: rest, key, d =>
    if k = key then some ((k, v + d) :: rest)
    else (bumpKey rest key d).map (fun l => (k, v) :: l)

/-- `ChecksumProcessor.update`: the hash ingests `data` first, then the
statistics entry `kind + "bytes"` is bumped — so a `KeyError` for an unknown
kind is raised only after the hash was updated. -/
def ChecksumProcessor.update (cp : ChecksumProcessor) (kind : Str) (data : Bytes) :
    Except (Err × ChecksumProcessor) ChecksumProcessor :=
  match bumpKey cp.stats (kind ++ "bytes".data) data.length with
  | some s => .ok { stats := s, csum := cp.csum ++ data }
  | none => .error (.keyError, { stats := cp.stats, csum := cp.csum ++ data })

/-- `ChecksumProcessor.increment`. -/
def ChecksumProcessor.increment (cp : ChecksumProcessor) (kind : Str) :
    Except (Err × ChecksumProcessor) ChecksumProcessor :=
  match bumpKey cp.stats kind 1 with
  | some s => .ok { cp with stats := s }
  | none => .error (.keyError, cp)

/-- `ChecksumProcessor.get_digest`: the digest is a function of exactly the
ingested stream (`hexdigest` of it); it is represented by the stream. -/
def ChecksumProcessor.get_digest (cp : ChecksumProcessor) : Bytes := cp.csum

/-- The keys of the freshly initialised statistics dictionary. -/
def initKeys : List Str :=
  ["commit".data, "tree".data, "blob".data,
   "commitbytes".data, "treebytes".data, "blobbytes".data]

/-- The key list of a `ChecksumProcessor`'s statistics dictionary. -/
def statKeys (cp : ChecksumProcessor) : List Str := cp.stats.map Prod.fst

/-! ## Object channel (`class GitBatchProcessor`) -/

/-- Python `stream.readline()` over a byte list: everything up to and
including the first `\n` byte (all remaining bytes at EOF). -/
def readline : List Nat → List Nat × List Nat
  | [] => ([], [])
  | b :: r =>
    if b = 10 then ([10], r)
    else
      let p := readline r
      (b :: p.1, p.2)

/-- `GitBatchProcessor.get_object`: parse one batch response from the
response byte stream. Returns the `(obj_type, obj_len, content)` triple and
the unconsumed rest of the stream. The request write
(`obj_id + "\n"` to stdin) has no effect on the response bytes and is not
modelled. -/
def get_object (stream : List Nat) (_objId : Str) :
    Except Err ((Str × Nat × Bytes) × List Nat) :=
  let p := readline stream
  match decodeAscii p.1 with
  | none => .error .decodeFail
  | some line =>
    let header := pyStrip line
    if containsSub " missing".data header then .error .notFound
    else
      match pySplitWs2 header with
      | [_idRet, objType, strLen] =>
        match parseNatDigits strLen with
        | none => .error .intParseFail
        | some objLen =>
          let content := p.2.take objLen
          if content.length ≠ objLen then .error .shortRead
          else .ok ((objType, objLen, content), (p.2.drop objLen).drop 1)
      | _ => .error .malformedHeader

/-- The exit-status actions of `GitBatchProcessor.__exit__`. -/
inductive ChanAction where
  | closeInput
  | waitExit
  deriving DecidableEq, Repr

/-- The state `GitBatchProcessor.__exit__` acts on. -/
structure BatchChanState where
  stdinOpen : Bool
  hasProcess : Bool
  returncode : Int
  deriving DecidableEq, Repr

/-- `GitBatchProcessor.__exit__`: close stdin if open, then (if a process
was spawned) wait for it and raise `CalledProcessError` on a non-zero exit
status. Returns the sequence of performed actions and the raised error, if
any. -/
def batch_exit (s : BatchChanState) : List ChanAction × Option Err :=
  let acts1 : List ChanAction := if s.stdinOpen then [.closeInput] else []
  if s.hasProcess then
    (acts1 ++ [.waitExit], if s.returncode ≠ 0 then some .backendProcess else none)
  else (acts1, none)

/-! ## Graph walker (`class GitProcessor`) -/

/-- The object-body header `f"{obj_type} {obj_len}\0".encode("ascii")` fed to
the accumulator before an object's content. -/
def headerBytes (kind : Str) (len : Nat) : Bytes :=
  strBytes (kind ++ ' ' :: (Nat.repr len).data ++ ['\x00'])

/-- A fetch function: the result of `GitBatchProcessor.get_object` for an
object id (`get_object` guarantees `obj_len = content.length`). -/
def FetchFn : Type := Str → Except Err (Str × Nat × Bytes)

/-- `GitProcessor.checksum_object`: fetch the object, feed
`update(header)`, `increment(kind)`; for a commit, decode the content,
require the first line to start with `"tree "` and take
`split(None, 1)[1].strip()` as the tree id; then feed `update(content)`. -/
def checksum_object (fetch : FetchFn) (cp : ChecksumProcessor) (objId : Str) :
    Except (Err × ChecksumProcessor) (ChecksumProcessor × Option Str) :=
  if objId = [] then .error (.emptyId, cp)
  else
    match fetch objId with
    | .error e => .error (e, cp)
    | .ok (objType, objLen, content) =>
      match cp.update objType (headerBytes objType objLen) with
      | .error e => .error e
      | .ok cp1 =>
        match cp1.increment objType with
        | .error e => .error e
        | .ok cp2 =>
          if objType = "commit".data then
            match decodeAscii content with
            | none => .error (.decodeFail, cp2)
            | some chars =>
              match pySplitNl chars with
              | [] => .error (.malformedCommit, cp2)
              | l0 :: _ =>
                if "tree ".data.isPrefixOf l0 then
                  match splitWhiteOnce l0 with
                  | none => .error (.indexFail, cp2)
                  | some (_, rest) =>
                    match cp2.update objType content with
                    | .error e => .error e
                    | .ok cp3 => .ok (cp3, some (pyStrip rest))
                else .error (.malformedCommit, cp2)
          else
            match cp2.update objType content with
            | .error e => .error e
            | .ok cp3 => .ok (cp3, none)

/-- `checksum_object` run against a batch channel with response stream
`stream` (the composition of `GitProcessor.checksum_object` with
`GitBatchProcessor.get_object`). -/
def checksum_object_chan (stream : List Nat) (cp : ChecksumProcessor) (objId : Str) :
    Except (Err × ChecksumProcessor) (ChecksumProcessor × Option Str) :=
  checksum_object (fun i => (get_object stream i).map Prod.fst) cp objId

/-- One parsed `git ls-tree` record
(`mode, obj_type, subid, fname = line.split(None, 3)`). -/
structure Entry where
  mode : Str
  kind : Str
  id : Str
  name : Str
  deriving DecidableEq, Repr

/-- Two tree entries that agree on everything except possibly the mode
field. -/
def EntrySameNoMode (e1 e2 : Entry) : Prop :=
  e1.kind = e2.kind ∧ e1.id = e2.id ∧ e1.name = e2.name

/-- The backend store of one repository root: the batch-channel fetch result
per object id, and the `git ls-tree` records per tree id (a listing whose
`ls-tree` process exits non-zero is not modelled; the walker claims do not
involve it). -/
structure Backend where
  objects : FetchFn
  listing : Str → List Entry

/-- The family of backends, one per repository root path (a nested
sub-repository opens its own channel against its own root). -/
def Env : Type := List Str → Backend

mutual

/-- `GitProcessor.checksum_tree`: checksum the tree object itself, then walk
its direct entries in backend order. `fuel` bounds the recursion depth
(a model artifact; on an acyclic store any sufficiently large fuel gives the
Python behaviour). -/
def checksum_tree (env : Env) (fuel : Nat) (repo path : List Str)
    (cp : ChecksumProcessor) (objId : Str) :
    Except (Err × ChecksumProcessor) ChecksumProcessor :=
  match fuel with
  | 0 => .error (.outOfFuel, cp)
  | fuel + 1 =>
    match checksum_object (env repo).objects cp objId with
    | .error e => .error e
    | .ok (cp1, _) => checksum_tree_entries env fuel repo path cp1 ((env repo).listing objId)

/-- The entry loop of `GitProcessor.checksum_tree`: `blob` entries are
checksummed directly, `tree` entries recurse, `commit` entries recurse into
the nested repository rooted at `repo/path/name` with the same accumulator,
anything else raises `Unknown object type`. -/
def checksum_tree_entries (env : Env) (fuel : Nat) (repo path : List Str)
    (cp : ChecksumProcessor) (entries : List Entry) :
    Except (Err × ChecksumProcessor) ChecksumProcessor :=
  match entries with
  | [] => .ok cp
  | e :: rest =>
    match fuel with
    | 0 => .error (.outOfFuel, cp)
    | fuel + 1 =>
      let fname := pyStrip e.name
      if e.kind = "blob".data then
        match checksum_object (env repo).objects cp e.id with
        | .error err => .error err
        | .ok (cp1, _) => checksum_tree_entries env fuel repo path cp1 rest
      else if e.kind = "tree".data then
        match checksum_tree env fuel repo (path ++ [fname]) cp e.id with
        | .error err => .error err
        | .ok cp1 => checksum_tree_entries env fuel repo path cp1 rest
      else if e.kind = "commit".data then
        match checksum_repo env fuel (repo ++ path ++ [fname]) cp e.id (path ++ [fname]) with
        | .error err => .error err
        | .ok cp1 => checksum_tree_entries env fuel repo path cp1 rest
      else .error (.unknownKind, cp)

/-- `GitProcessor.checksum_repo`: checksum the commit object, then (when a
tree id was returned and is non-empty, `if tree_id:`) walk the tree. -/
def checksum_repo (env : Env) (fuel : Nat) (repo : List Str)
    (cp : ChecksumProcessor) (objId : Str) (path : List Str) :
    Except (Err × ChecksumProcessor) ChecksumProcessor :=
  match fuel with
  | 0 => .error (.outOfFuel, cp)
  | fuel + 1 =>
    match checksum_object (env repo).objects cp objId with
    | .error e => .error e
    | .ok (cp1, some treeId) =>
      if treeId = [] then .ok cp1 else checksum_tree env fuel repo path cp1 treeId
    | .ok (cp1, none) => .ok cp1

end

/-! ## Tag codec (`sign_tree_checksum` lines 134-137, `extract_checksum_from_tag`) -/

/-- The footer marker `"Git-EVTag-v0-SHA512: "` (with its trailing space). -/
def evMark : Str := "Git-EVTag-v0-SHA512: ".data

/-- The effect of
`re.sub(r"\n?Git-EVTag-v0-SHA512: .*\n?", "", message, flags=re.DOTALL)`.
With `re.DOTALL` the greedy `.*` matches to the end of the string, so the
single leftmost match starts at the first occurrence of the marker
(extended one character left when a `\n` directly precedes it) and extends
to the end of the string; the substitution therefore keeps exactly the text
before that point. -/
def cleaned_msg (message : Str) : Str :=
  match findSub evMark message with
  | none => message
  | some j =>
    if j ≠ 0 ∧ message.get? (j - 1) = some '\n' then message.take (j - 1)
    else message.take j

/-- `final_msg = cleaned_msg.rstrip() + f"\n\nGit-EVTag-v0-SHA512: {in_csum}\n"`
(`sign_tree_checksum` lines 134-137): the message of the tag to be created. -/
def final_tag_message (message inCsum : Str) : Str :=
  rstripPy (cleaned_msg message) ++ '\n' :: '\n' :: (evMark ++ inCsum ++ ['\n'])

/-- The scan of `extract_checksum_from_tag` over the tag contents: the first
line whose stripped form starts with the marker yields
`line.split("Git-EVTag-v0-SHA512: ", 1)[1].strip()`; `none` when no line
matches. (The `getD` branch of the split is unreachable: a matching line
contains the marker.) -/
def extract_checksum_from_tag (contents : Str) : Option Str :=
  match (splitlinesPy contents).find? (fun line => evMark.isPrefixOf (pyStrip line)) with
  | some line => some (pyStrip ((pySplitOnceRest evMark line).getD line))
  | none => none

/-! ## Verifier (`verify_tag`) -/

/-- The four reported outcomes of `verify_tag`, one per `logging` branch. -/
inductive VerifyOutcome where
  /-- checksum and signature both verified (`logging.info`, returns True). -/
  | verified
  /-- checksum verified, signature failed. -/
  | checksumOnly
  /-- signature verified, checksum failed. -/
  | signatureOnly
  /-- both failed. -/
  | neither
  deriving DecidableEq, Repr

/-- `verify_tag`: the returned boolean and the reported outcome, as a function
of the stored checksum, the computed checksum and the (externally obtained,
`is_tag_signature_valid`) signature validity. -/
def verify_tag (tagEvtagCsum calcEvtagCsum : Str) (tagSig : Bool) : Bool × VerifyOutcome :=
  let matched : Bool := tagEvtagCsum = calcEvtagCsum
  if matched && tagSig then (true, .verified)
  else if matched && !tagSig then (false, .checksumOnly)
  else if tagSig && !matched then (false, .signatureOnly)
  else (false, .neither)

/-- Decidable equality for `Except` results (used by witness evaluations). -/
instance {ε α : Type} [DecidableEq ε] [DecidableEq α] : DecidableEq (Except ε α) := fun a b =>
  match a, b with
  | .error e1, .error e2 =>
    if h : e1 = e2 then .isTrue (congrArg Except.error h)
    else .isFalse (fun hh => h (Except.error.inj hh))
  | .ok x, .ok y =>
    if h : x = y then .isTrue (congrArg Except.ok h)
    else .isFalse (fun hh => h (Except.ok.inj hh))
  | .error _, .ok _ => .isFalse Except.noConfusion
  | .ok _, .error _ => .isFalse Except.noConfusion

/-! ## Concrete fixtures used by witnesses and counterexamples -/

/-- A store holding one blob `"hello\n"` under id `"b"`. -/
def blobHelloFetch : FetchFn :=
  fun i => if i = ['b'] then .ok ("blob".data, 6, [104, 101, 108, 108, 111, 10]) else .error .notFound

/-- A store holding, under id `"c"`, a commit object whose content is the five
bytes `"tree "` (first line starts with `"tree "` but has no second field). -/
def degenerateCommitFetch : FetchFn :=
  fun i => if i = ['c'] then .ok ("commit".data, 5, [116, 114, 101, 101, 32]) else .error .notFound

/-- A store holding, under id `"t"`, an object whose backend-declared kind is
`tag` (as `git cat-file --batch` reports for an unpeeled annotated tag). -/
def tagKindFetch : FetchFn :=
  fun i => if i = ['t'] then .ok ("tag".data, 3, [1, 2, 3]) else .error .notFound

/-- The accumulator state after checksumming the `"hello\n"` blob from a
fresh accumulator. -/
def blobHelloResult : ChecksumProcessor :=
  { stats := [("commit".data, 0), ("tree".data, 0), ("blob".data, 1),
              ("commitbytes".data, 0), ("treebytes".data, 0), ("blobbytes".data, 13)],
    csum := [98, 108, 111, 98, 32, 54, 0, 104, 101, 108, 108, 111, 10] }

/-- A channel response stream `b"a blob 4\n"` followed by only two of the
four declared content bytes. -/
def c7ShortStream : List Nat := [97, 32, 98, 108, 111, 98, 32, 52, 10, 1, 2]

/-- A channel response stream `b"a blob 4\n"` followed by the four content
bytes, the trailing separator and one extra byte. -/
def c7OkStream : List Nat := [97, 32, 98, 108, 111, 98, 32, 52, 10, 1, 2, 3, 4, 10, 99]

/-- A store holding, under id `"c"`, a commit whose content is
`"tree abc\nxyz"`. -/
def c6CommitFetch : FetchFn :=
  fun i => if i = ['c'] then
    .ok ("commit".data, 12, [116, 114, 101, 101, 32, 97, 98, 99, 10, 120, 121, 122])
  else .error .notFound

/-- A store holding, under id `"d"`, a commit whose content is
`"parent abc"` (first line does not start with `"tree "`). -/
def c6BadCommitFetch : FetchFn :=
  fun i => if i = ['d'] then
    .ok ("commit".data, 10, [112, 97, 114, 101, 110, 116, 32, 97, 98, 99])
  else .error .notFound

/-- Tree entry `"100644 blob b x"`. -/
def dupEntry1 : Entry := { mode := "100644".data, kind := "blob".data, id := ['b'], name := ['x'] }

/-- Tree entry `"100644 blob b y"`: a second name for the same blob id. -/
def dupEntry2 : Entry := { mode := "100644".data, kind := "blob".data, id := ['b'], name := ['y'] }

/-- Objects of the duplicate-blob fixture: blob `"hi"` under `"b"`, a tree
under `"T"`. -/
def dupObjects : FetchFn :=
  fun i => if i = ['b'] then .ok ("blob".data, 2, [104, 105])
           else if i = ['T'] then .ok ("tree".data, 3, [1, 2, 3])
           else .error .notFound

/-- Backend whose tree `"T"` lists the same blob twice under two names. -/
def dupEnvTwo : Env := fun _ =>
  { objects := dupObjects,
    listing := fun i => if i = ['T'] then [dupEntry1, dupEntry2] else [] }

/-- Same store, but tree `"T"` lists the blob only once. -/
def dupEnvOne : Env := fun _ =>
  { objects := dupObjects,
    listing := fun i => if i = ['T'] then [dupEntry1] else [] }

/-- Same listing as `dupEnvTwo` with different mode fields on both entries. -/
def dupEnvTwoModes : Env := fun _ =>
  { objects := dupObjects,
    listing := fun i =>
      if i = ['T'] then [{ dupEntry1 with mode := "100755".data },
                         { dupEntry2 with mode := "120000".data }] else [] }

/-! ## Helper lemmas about the statistics dictionary and the accumulator -/

lemma bumpKey_map_fst : ∀ (l : List (Str × Nat)) (k : Str) (d : Nat) (l' : List (Str × Nat)),
    bumpKey l k d = some l' → l'.map Prod.fst = l.map Prod.fst := by
  intro l
  induction l with
  | nil => intro k d l' h; simp [bumpKey] at h
  | cons p rest ih =>
    intro k d l' h
    rcases p with ⟨pk, pv⟩
    rw [bumpKey] at h
    by_cases hk : pk = k
    · rw [if_pos hk] at h
      injection h with h
      subst h
      simp
    · rw [if_neg hk] at h
      rcases ho : bumpKey rest k d with _ | r
      · rw [ho] at h; exact Option.noConfusion h
      · rw [ho] at h
        simp only [Option.map_some'] at h
        injection h with h
        subst h
        simp [ih k d r ho]

lemma bumpKey_eq_none : ∀ (l : List (Str × Nat)) (k : Str) (d : Nat),
    k ∉ l.map Prod.fst → bumpKey l k d = none := by
  intro l
  induction l with
  | nil => intro k d _; rfl
  | cons p rest ih =>
    intro k d h
    rcases p with ⟨pk, pv⟩
    simp only [List.map_cons, List.mem_cons] at h
    push_neg at h
    rw [bumpKey, if_neg (fun hh => h.1 hh.symm), ih k d h.2]
    rfl

lemma bumpKey_of_mem : ∀ (l : List (Str × Nat)) (k : Str) (d : Nat),
    k ∈ l.map Prod.fst → ∃ l', bumpKey l k d = some l' := by
  intro l
  induction l with
  | nil => intro k d h; simp at h
  | cons p rest ih =>
    intro k d h
    rcases p with ⟨pk, pv⟩
    by_cases hk : pk = k
    · exact ⟨_, by rw [bumpKey, if_pos hk]⟩
    · simp only [List.map_cons, List.mem_cons] at h
      rcases h with h | h
      · exact absurd h.symm hk
      · rcases ih k d h with ⟨l', hl'⟩
        exact ⟨(pk, pv) :: l', by rw [bumpKey, if_neg hk, hl']; rfl⟩

lemma update_ok_of_key (cp : ChecksumProcessor) (kind : Str) (data : Bytes)
    (h : (kind ++ "bytes".data) ∈ statKeys cp) :
    ∃ cp', cp.update kind data = .ok cp' ∧ cp'.csum = cp.csum ++ data ∧
      statKeys cp' = statKeys cp := by
  rcases bumpKey_of_mem cp.stats _ data.length h with ⟨l', hl'⟩
  refine ⟨{ stats := l', csum := cp.csum ++ data }, ?_, rfl, ?_⟩
  · unfold ChecksumProcessor.update
    rw [hl']
  · simpa [statKeys] using bumpKey_map_fst cp.stats _ data.length l' hl'

lemma update_ok_csum {cp cp' : ChecksumProcessor} {kind : Str} {data : Bytes}
    (h : cp.update kind data = .ok cp') : cp'.csum = cp.csum ++ data := by
  unfold ChecksumProcessor.update at h
  rcases hb : bumpKey cp.stats (kind ++ "bytes".data) data.length with _ | s <;> rw [hb] at h
  · exact Except.noConfusion h
  · injection h with h
    subst h
    rfl

lemma update_err_of_not_key {cp : ChecksumProcessor} {kind : Str} (data : Bytes)
    (h : (kind ++ "bytes".data) ∉ statKeys cp) :
    cp.update kind data =
      .error (.keyError, { stats := cp.stats, csum := cp.csum ++ data }) := by
  unfold ChecksumProcessor.update
  rw [bumpKey_eq_none cp.stats _ data.length (by simpa [statKeys] using h)]

lemma increment_ok_of_key (cp : ChecksumProcessor) (kind : Str)
    (h : kind ∈ statKeys cp) :
    ∃ cp', cp.increment kind = .ok cp' ∧ cp'.csum = cp.csum ∧
      statKeys cp' = statKeys cp := by
  rcases bumpKey_of_mem cp.stats kind 1 h with ⟨l', hl'⟩
  refine ⟨{ stats := l', csum := cp.csum }, ?_, rfl, ?_⟩
  · unfold ChecksumProcessor.increment
    rw [hl']
  · simpa [statKeys] using bumpKey_map_fst cp.stats kind 1 l' hl'

lemma increment_ok_csum {cp cp' : ChecksumProcessor} {kind : Str}
    (h : cp.increment kind = .ok cp') : cp'.csum = cp.csum := by
  unfold ChecksumProcessor.increment at h
  rcases hb : bumpKey cp.stats kind 1 with _ | s <;> rw [hb] at h
  · exact Except.noConfusion h
  · injection h with h
    subst h
    rfl

/-- On any successful path, `checksum_object` extends the ingested stream by
exactly the header then the content. -/
lemma checksum_object_csum {f : FetchFn} {cp cp' : ChecksumProcessor} {objId k : Str}
    {L : Nat} {C : Bytes} {t : Option Str}
    (hf : f objId = .ok (k, L, C))
    (hres : checksum_object f cp objId = .ok (cp', t)) :
    cp'.csum = cp.csum ++ (headerBytes k L ++ C) := by
  unfold checksum_object at hres
  by_cases hid : objId = []
  · rw [if_pos hid] at hres
    exact Except.noConfusion hres
  · rw [if_neg hid] at hres
    simp only [hf] at hres
    rcases hu1 : cp.update k (headerBytes k L) with e1 | cp1 <;> simp only [hu1] at hres
    · exact Except.noConfusion hres
    rcases hi : cp1.increment k with e2 | cp2 <;> simp only [hi] at hres
    · exact Except.noConfusion hres
    by_cases hc : k = "commit".data
    · rw [if_pos hc] at hres
      rcases hd : decodeAscii C with _ | chars <;> simp only [hd] at hres
      · exact Except.noConfusion hres
      rcases hl : pySplitNl chars with _ | ⟨l0, ls⟩ <;> simp only [hl] at hres
      · exact Except.noConfusion hres
      by_cases ht : "tree ".data.isPrefixOf l0
      · rw [if_pos ht] at hres
        rcases hs : splitWhiteOnce l0 with _ | ⟨tok, rest⟩ <;> simp only [hs] at hres
        · exact Except.noConfusion hres
        rcases hu2 : cp2.update k C with e3 | cp3 <;> simp only [hu2] at hres
        · exact Except.noConfusion hres
        injection hres with hres
        rw [← ((Prod.mk.injEq _ _ _ _).mp hres).1]
        rw [update_ok_csum hu2, increment_ok_csum hi, update_ok_csum hu1, List.append_assoc]
      · rw [if_neg ht] at hres
        exact Except.noConfusion hres
    · rw [if_neg hc] at hres
      rcases hu2 : cp2.update k C with e3 | cp3 <;> simp only [hu2] at hres
      · exact Except.noConfusion hres
      injection hres with hres
      rw [← ((Prod.mk.injEq _ _ _ _).mp hres).1]
      rw [update_ok_csum hu2, increment_ok_csum hi, update_ok_csum hu1, List.append_assoc]

/-- Successful run of `checksum_object` on a non-commit kind whose statistics
keys are present: the stream grows by header then content, the keys are
unchanged, and no tree id is returned. -/
lemma checksum_object_ok_plain {f : FetchFn} {cp : ChecksumProcessor} {objId k : Str}
    {L : Nat} {C : Bytes}
    (hid : objId ≠ []) (hf : f objId = .ok (k, L, C)) (hkc : k ≠ "commit".data)
    (hmem1 : (k ++ "bytes".data) ∈ statKeys cp) (hmem2 : k ∈ statKeys cp) :
    ∃ cp', checksum_object f cp objId = .ok (cp', none) ∧
      cp'.csum = cp.csum ++ (headerBytes k L ++ C) ∧ statKeys cp' = statKeys cp := by
  rcases update_ok_of_key cp k (headerBytes k L) hmem1 with ⟨cp1, hu1, hc1, hk1⟩
  rcases increment_ok_of_key cp1 k (by rw [hk1]; exact hmem2) with
    ⟨cp2, hi, hc2, hk2⟩
  rcases update_ok_of_key cp2 k C (by rw [hk2, hk1]; exact hmem1) with
    ⟨cp3, hu2, hc3, hk3⟩
  refine ⟨cp3, ?_, ?_, ?_⟩
  · unfold checksum_object
    rw [if_neg hid]
    simp only [hf, hu1, hi, if_neg hkc, hu2]
  · rw [hc3, hc2, hc1, List.append_assoc]
  · rw [hk3, hk2, hk1]

/-- A kind outside `{commit, tree, blob}` has no `kind ++ "bytes"` key in the
initial statistics dictionary. -/
lemma append_bytes_not_mem_initKeys {k : Str}
    (hk1 : k ≠ "commit".data) (hk2 : k ≠ "tree".data) (hk3 : k ≠ "blob".data) :
    (k ++ "bytes".data) ∉ initKeys := by
  intro hmem
  have hcb : ("commitbytes".data : Str) = "commit".data ++ "bytes".data := by decide
  have htb : ("treebytes".data : Str) = "tree".data ++ "bytes".data := by decide
  have hbb : ("blobbytes".data : Str) = "blob".data ++ "bytes".data := by decide
  simp only [initKeys, List.mem_cons, List.not_mem_nil, or_false] at hmem
  rcases hmem with h | h | h | h | h | h
  · exact absurd (h ▸ List.suffix_append k ("bytes".data)) (by decide)
  · exact absurd (h ▸ List.suffix_append k ("bytes".data)) (by decide)
  · exact absurd (h ▸ List.suffix_append k ("bytes".data)) (by decide)
  · exact hk1 (List.append_cancel_right (h.trans hcb))
  · exact hk2 (List.append_cancel_right (h.trans htb))
  · exact hk3 (List.append_cancel_right (h.trans hbb))

/-! ## Claims -/

/-- **C1.** For every fetched object of kind `k`, length `L` and content
bytes `C`, a successful `checksum_object` extends the accumulator's ingested
stream by exactly the ASCII header `"{k} {L}\0"` (`headerBytes k L`, decimal
length with no leading zeros, a single NUL terminator) immediately followed
by the content bytes `C`, contiguously, before any bytes of any other
object. -/
theorem c1_header_framing (fetch : FetchFn) (cp cp' : ChecksumProcessor)
    (objId k : Str) (L : Nat) (C : Bytes) (t : Option Str)
    (hf : fetch objId = .ok (k, L, C))
    (hres : checksum_object fetch cp objId = .ok (cp', t)) :
    cp'.csum = cp.csum ++ (headerBytes k L ++ C) :=
  checksum_object_csum hf hres

/-- Witness for C1: a blob of length 6 with content `"hello\n"`, checksummed
from a fresh accumulator, ingests exactly `b"blob 6\0hello\n"`. -/
theorem c1_header_framing_witness :
    blobHelloResult.csum =
      ChecksumProcessor.init.csum ++
        (headerBytes "blob".data 6 ++ [104, 101, 108, 108, 111, 10]) ∧
    blobHelloResult.csum = [98, 108, 111, 98, 32, 54, 0, 104, 101, 108, 108, 111, 10] :=
  ⟨c1_header_framing blobHelloFetch ChecksumProcessor.init blobHelloResult
      ['b'] ("blob".data) 6 [104, 101, 108, 108, 111, 10] none
      (by decide) (by decide),
   by decide⟩

/-- **C4.** `verify_tag` returns `true` exactly when the stored digest equals
the computed digest and the signature is valid; the four combinations of
digest match and signature validity are reported as four distinct outcomes,
and no failing combination is reported as success. -/
theorem c4_verify_four_way :
    (∀ (tagCsum calcCsum : Str) (sig : Bool),
        ((verify_tag tagCsum calcCsum sig).1 = true ↔ (tagCsum = calcCsum ∧ sig = true)) ∧
        (verify_tag tagCsum calcCsum sig).2 =
          (if tagCsum = calcCsum then (if sig then .verified else .checksumOnly)
           else (if sig then .signatureOnly else .neither))) ∧
    (verify_tag ['a'] ['a'] true).2 ≠ (verify_tag ['a'] ['a'] false).2 ∧
    (verify_tag ['a'] ['a'] true).2 ≠ (verify_tag ['a'] ['b'] true).2 ∧
    (verify_tag ['a'] ['a'] true).2 ≠ (verify_tag ['a'] ['b'] false).2 ∧
    (verify_tag ['a'] ['a'] false).2 ≠ (verify_tag ['a'] ['b'] true).2 ∧
    (verify_tag ['a'] ['a'] false).2 ≠ (verify_tag ['a'] ['b'] false).2 ∧
    (verify_tag ['a'] ['b'] true).2 ≠ (verify_tag ['a'] ['b'] false).2 := by
  refine ⟨?_, by decide, by decide, by decide, by decide, by decide, by decide⟩
  intro a b s
  by_cases h : a = b <;> cases s <;> simp [verify_tag, h]

/-- **C8.** Closing the batch channel closes the process input stream first,
then waits for process exit, and reports `BackendProcessError` exactly when
the exit status is non-zero — independently of anything read earlier (the
exit routine takes no read history as input). -/
theorem c8_exit_order (s : BatchChanState)
    (h1 : s.stdinOpen = true) (h2 : s.hasProcess = true) :
    (batch_exit s).1 = [.closeInput, .waitExit] ∧
    ((batch_exit s).2 = some .backendProcess ↔ s.returncode ≠ 0) := by
  constructor
  · simp [batch_exit, h1, h2]
  · by_cases hr : s.returncode = 0 <;> simp [batch_exit, h1, h2, hr]

/-- Witness for C8 at a non-zero exit status. -/
theorem c8_exit_order_witness :
    (batch_exit { stdinOpen := true, hasProcess := true, returncode := 1 }).1 =
      [.closeInput, .waitExit] ∧
    ((batch_exit { stdinOpen := true, hasProcess := true, returncode := 1 }).2 =
        some .backendProcess ↔ (1 : Int) ≠ 0) :=
  c8_exit_order { stdinOpen := true, hasProcess := true, returncode := 1 } rfl rfl

/-- **C10.** For every fetched object whose backend-declared kind is outside
`{commit, tree, blob}` (for example `"tag"`), `checksum_object` fails with
the statistics-dictionary `KeyError` raised inside
`ChecksumProcessor.update` — not with `UnknownObjectKindError`, which guards
only tree entries — and the raise happens after the hash already ingested
the header bytes. -/
theorem c10_unknown_kind_keyerror (f : FetchFn) (cp : ChecksumProcessor)
    (objId k : Str) (L : Nat) (C : Bytes)
    (hid : objId ≠ []) (hf : f objId = .ok (k, L, C)) (hkeys : statKeys cp = initKeys)
    (hk1 : k ≠ "commit".data) (hk2 : k ≠ "tree".data) (hk3 : k ≠ "blob".data) :
    checksum_object f cp objId =
      .error (.keyError, { stats := cp.stats, csum := cp.csum ++ headerBytes k L }) := by
  have hmem : (k ++ "bytes".data) ∉ statKeys cp := by
    rw [hkeys]
    exact append_bytes_not_mem_initKeys hk1 hk2 hk3
  unfold checksum_object
  rw [if_neg hid]
  simp only [hf, update_err_of_not_key (headerBytes k L) hmem]

/-- Witness for C10: an object of kind `"tag"` fails with the `KeyError`. -/
theorem c10_unknown_kind_keyerror_witness :
    checksum_object tagKindFetch ChecksumProcessor.init ['t'] =
      .error (.keyError, { stats := ChecksumProcessor.init.stats,
                           csum := ChecksumProcessor.init.csum ++ headerBytes "tag".data 3 }) :=
  c10_unknown_kind_keyerror tagKindFetch ChecksumProcessor.init ['t'] ("tag".data) 3 [1, 2, 3]
    (by decide) (by decide) (by decide) (by decide) (by decide) (by decide)

/-- The framing header is never empty (it ends with the NUL byte). -/
lemma headerBytes_ne_nil (k : Str) (L : Nat) : headerBytes k L ≠ [] := by
  unfold headerBytes strBytes
  intro h
  have := congrArg List.length h
  simp at this

/-- **C5.** The walker performs no deduplication: when a tree's backend
listing holds two entries with distinct names referencing the same blob id,
that blob's header and content are ingested once per visit — twice — and the
resulting digest differs from the run over the same store whose listing
holds only the first entry. -/
theorem c5_no_dedup (env env' : Env) (r p : List Str) (cp : ChecksumProcessor)
    (T B m1 m2 n1 n2 : Str) (C CT : Bytes)
    (hT : T ≠ []) (hB : B ≠ []) (_hnames : n1 ≠ n2)
    (hobjB : (env r).objects B = .ok ("blob".data, C.length, C))
    (hobjT : (env r).objects T = .ok ("tree".data, CT.length, CT))
    (hlist : (env r).listing T =
      [⟨m1, "blob".data, B, n1⟩, ⟨m2, "blob".data, B, n2⟩])
    (hobj' : (env' r).objects = (env r).objects)
    (hlist' : (env' r).listing T = [⟨m1, "blob".data, B, n1⟩])
    (hkeys : statKeys cp = initKeys) :
    ∃ cp2 cp1,
      checksum_tree env 3 r p cp T = .ok cp2 ∧
      checksum_tree env' 3 r p cp T = .ok cp1 ∧
      cp2.csum = ((cp.csum ++ (headerBytes "tree".data CT.length ++ CT))
        ++ (headerBytes "blob".data C.length ++ C))
        ++ (headerBytes "blob".data C.length ++ C) ∧
      cp1.csum = (cp.csum ++ (headerBytes "tree".data CT.length ++ CT))
        ++ (headerBytes "blob".data C.length ++ C) ∧
      cp2.get_digest ≠ cp1.get_digest := by
  rcases checksum_object_ok_plain hT hobjT (by decide) (by rw [hkeys]; decide)
    (by rw [hkeys]; decide) with ⟨cpT, hT1, hT2, hT3⟩
  have hkT : statKeys cpT = initKeys := by rw [hT3, hkeys]
  rcases checksum_object_ok_plain hB hobjB (by decide) (by rw [hkT]; decide)
    (by rw [hkT]; decide) with ⟨cpA, hA1, hA2, hA3⟩
  have hkA : statKeys cpA = initKeys := by rw [hA3, hkT]
  rcases checksum_object_ok_plain hB hobjB (by decide) (by rw [hkA]; decide)
    (by rw [hkA]; decide) with ⟨cpA2, hB1, hB2, hB3⟩
  have hobjB' : (env' r).objects B = .ok ("blob".data, C.length, C) := by
    rw [hobj', hobjB]
  have hobjT' : (env' r).objects T = .ok ("tree".data, CT.length, CT) := by
    rw [hobj', hobjT]
  rcases checksum_object_ok_plain hT hobjT' (by decide) (by rw [hkeys]; decide)
    (by rw [hkeys]; decide) with ⟨cpT', hT1', hT2', hT3'⟩
  have hkT' : statKeys cpT' = initKeys := by rw [hT3', hkeys]
  rcases checksum_object_ok_plain hB hobjB' (by decide) (by rw [hkT']; decide)
    (by rw [hkT']; decide) with ⟨cpA', hA1', hA2', hA3'⟩
  refine ⟨cpA2, cpA', ?_, ?_, ?_, ?_, ?_⟩
  · simp [checksum_tree, checksum_tree_entries, hT1, hlist, hA1, hB1]
  · simp [checksum_tree, checksum_tree_entries, hT1', hlist', hA1']
  · rw [hB2, hA2, hT2]
  · rw [hA2', hT2']
  · unfold ChecksumProcessor.get_digest
    intro heq
    have hlen := congrArg List.length heq
    rw [hB2, hA2, hT2, hA2', hT2'] at hlen
    have hpos : 0 < (headerBytes "blob".data C.length).length :=
      List.length_pos.mpr (headerBytes_ne_nil _ _)
    simp only [List.length_append] at hlen hpos
    omega

/-- Witness for C5: on the concrete duplicate-blob fixtures the two runs
produce different results. -/
theorem c5_no_dedup_witness :
    checksum_tree dupEnvTwo 3 [] [] ChecksumProcessor.init ['T'] ≠
      checksum_tree dupEnvOne 3 [] [] ChecksumProcessor.init ['T'] := by
  rcases c5_no_dedup dupEnvTwo dupEnvOne [] [] ChecksumProcessor.init
      ['T'] ['b'] ("100644".data) ("100644".data) ['x'] ['y'] [104, 105] [1, 2, 3]
      (by decide) (by decide) (by decide) (by decide) (by decide) (by decide)
      rfl (by decide) (by decide) with
    ⟨cp2, cp1, h1, h2, _, _, hne⟩
  intro h
  rw [h1, h2] at h
  injection h with h
  exact hne (by rw [h])

/-- **C7.** For a channel response whose header line parses into three
fields with declared length `n`: when fewer than `n` content bytes are
available the fetch fails with the short-read `ProtocolError` and
`checksum_object` run over that channel propagates the error with the
accumulator untouched (no header or content bytes fed); when `n` bytes are
available, exactly `n` content bytes are read and exactly one trailing
separator byte is discarded. -/
theorem c7_short_read (stream : List Nat) (cp : ChecksumProcessor) (objId : Str)
    (line a b c : Str) (n : Nat)
    (hid : objId ≠ [])
    (hdec : decodeAscii (readline stream).1 = some line)
    (hmiss : containsSub " missing".data (pyStrip line) = false)
    (hsplit : pySplitWs2 (pyStrip line) = [a, b, c])
    (hn : parseNatDigits c = some n) :
    ((readline stream).2.length < n →
      get_object stream objId = .error .shortRead ∧
      checksum_object_chan stream cp objId = .error (.shortRead, cp)) ∧
    (n ≤ (readline stream).2.length →
      get_object stream objId =
        .ok ((b, n, (readline stream).2.take n), ((readline stream).2.drop n).drop 1)) := by
  constructor
  · intro hlt
    have h1 : get_object stream objId = .error .shortRead := by
      unfold get_object
      simp only [hdec, hmiss, hsplit, hn, Bool.false_eq_true, if_false]
      have hne : ((readline stream).2.take n).length ≠ n := by
        simp only [List.length_take]
        omega
      rw [if_pos hne]
    refine ⟨h1, ?_⟩
    unfold checksum_object_chan checksum_object
    rw [if_neg hid]
    simp only [h1]
    rfl
  · intro hge
    unfold get_object
    simp only [hdec, hmiss, hsplit, hn, Bool.false_eq_true, if_false]
    have hl : ((readline stream).2.take n).length = n := by
      simp only [List.length_take]
      omega
    rw [if_neg (fun hne => hne hl)]

/-- Witness for C7: one short stream (two of four declared bytes) fails
without touching the accumulator; one complete stream yields exactly the
four content bytes and discards one separator byte. -/
theorem c7_short_read_witness :
    (get_object c7ShortStream ['x'] = .error .shortRead ∧
      checksum_object_chan c7ShortStream ChecksumProcessor.init ['x'] =
        .error (.shortRead, ChecksumProcessor.init)) ∧
    get_object c7OkStream ['x'] = .ok (("blob".data, 4, [1, 2, 3, 4]), [99]) := by
  constructor
  · exact (c7_short_read c7ShortStream ChecksumProcessor.init ['x']
      ("a blob 4\n".data) ['a'] ("blob".data) ['4'] 4
      (by decide) (by decide) (by decide) (by decide) (by decide)).1 (by decide)
  · have h := (c7_short_read c7OkStream ChecksumProcessor.init ['x']
      ("a blob 4\n".data) ['a'] ("blob".data) ['4'] 4
      (by decide) (by decide) (by decide) (by decide) (by decide)).2 (by decide)
    rw [h]
    decide

/-- The simultaneous mode-independence statement for the three mutually
recursive walker functions, proved by induction on the fuel. -/
lemma walk_mode_free_aux (env1 env2 : Env)
    (hobj : ∀ r, (env1 r).objects = (env2 r).objects)
    (hlist : ∀ r i, List.Forall₂ EntrySameNoMode ((env1 r).listing i) ((env2 r).listing i)) :
    ∀ fuel : Nat,
      (∀ (r p : List Str) (cp : ChecksumProcessor) (i : Str),
        checksum_tree env1 fuel r p cp i = checksum_tree env2 fuel r p cp i) ∧
      (∀ (r p : List Str) (cp : ChecksumProcessor) (i : Str),
        checksum_repo env1 fuel r cp i p = checksum_repo env2 fuel r cp i p) ∧
      (∀ (r p : List Str) (cp : ChecksumProcessor) (es1 es2 : List Entry),
        List.Forall₂ EntrySameNoMode es1 es2 →
        checksum_tree_entries env1 fuel r p cp es1 =
          checksum_tree_entries env2 fuel r p cp es2) := by
  intro fuel
  induction fuel with
  | zero =>
    refine ⟨fun r p cp i => rfl, fun r p cp i => rfl, fun r p cp es1 es2 h => ?_⟩
    cases h <;> rfl
  | succ fuel ih =>
    refine ⟨?_, ?_, ?_⟩
    · intro r p cp i
      simp only [checksum_tree, hobj r]
      rcases hco : checksum_object (env2 r).objects cp i with e | ⟨cp1, t⟩
      · rfl
      · exact ih.2.2 r p cp1 _ _ (hlist r i)
    · intro r p cp i
      simp only [checksum_repo, hobj r]
      rcases hco : checksum_object (env2 r).objects cp i with e | ⟨cp1, t⟩
      · rfl
      · rcases t with _ | tid
        · rfl
        · by_cases hnil : tid = []
          · simp only [if_pos hnil]
          · simp only [if_neg hnil]
            exact ih.1 r p cp1 tid
    · intro r p cp es1 es2 h
      rcases h with _ | ⟨h12, hrest⟩
      · rfl
      case cons e1 e2 rest1 rest2 =>
        rcases h12 with ⟨hk, hid', hn⟩
        simp only [checksum_tree_entries, hk, hid', hn, hobj r]
        by_cases hb : e2.kind = "blob".data
        · simp only [if_pos hb]
          rcases hco : checksum_object (env2 r).objects cp e2.id with e | ⟨cp1, t⟩
          · rfl
          · exact ih.2.2 r p cp1 _ _ hrest
        · simp only [if_neg hb]
          by_cases ht : e2.kind = "tree".data
          · simp only [if_pos ht]
            rw [ih.1 r (p ++ [pyStrip e2.name]) cp e2.id]
            rcases hct : checksum_tree env2 fuel r (p ++ [pyStrip e2.name]) cp e2.id with
              e | cp1
            · rfl
            · exact ih.2.2 r p cp1 _ _ hrest
          · simp only [if_neg ht]
            by_cases hc : e2.kind = "commit".data
            · simp only [if_pos hc]
              rw [ih.2.1 (r ++ p ++ [pyStrip e2.name]) (p ++ [pyStrip e2.name]) cp e2.id]
              rcases hcr : checksum_repo env2 fuel (r ++ p ++ [pyStrip e2.name]) cp e2.id
                  (p ++ [pyStrip e2.name]) with e | cp1
              · rfl
              · exact ih.2.2 r p cp1 _ _ hrest
            · simp only [if_neg hc]

/-- **C9.** File mode bits never contribute to the checksum: two traversals
over backends whose listings agree entry-by-entry on kind, id and name —
differing only in the mode field — and whose object stores are identical,
produce identical results (in particular identical digests), for both the
tree walk and the full repository walk. -/
theorem c9_mode_not_in_digest (env1 env2 : Env)
    (hobj : ∀ r, (env1 r).objects = (env2 r).objects)
    (hlist : ∀ r i, List.Forall₂ EntrySameNoMode ((env1 r).listing i) ((env2 r).listing i))
    (fuel : Nat) (r p : List Str) (cp : ChecksumProcessor) (objId : Str) :
    checksum_repo env1 fuel r cp objId p = checksum_repo env2 fuel r cp objId p ∧
    checksum_tree env1 fuel r p cp objId = checksum_tree env2 fuel r p cp objId :=
  ⟨(walk_mode_free_aux env1 env2 hobj hlist fuel).2.1 r p cp objId,
   (walk_mode_free_aux env1 env2 hobj hlist fuel).1 r p cp objId⟩

/-! ### String lemmas for the tag codec -/

lemma isPrefixOf_self : ∀ (l : Str), l.isPrefixOf l = true := by
  intro l
  induction l with
  | nil => rfl
  | cons c r ih => simp [List.isPrefixOf, ih]

lemma isPrefixOf_append_right {p x : Str} (t : Str) (h : p.isPrefixOf x = true) :
    p.isPrefixOf (x ++ t) = true := by
  induction p generalizing x with
  | nil => cases x ++ t <;> rfl
  | cons a as ih =>
    cases x with
    | nil => simp [List.isPrefixOf] at h
    | cons b bs =>
      simp only [List.cons_append]
      simp only [List.isPrefixOf, Bool.and_eq_true] at h ⊢
      exact ⟨h.1, ih h.2⟩

lemma isPrefixOf_of_take {p y : Str} {m : Nat} (h : p.isPrefixOf (y.take m) = true) :
    p.isPrefixOf y = true := by
  have := isPrefixOf_append_right (y.drop m) h
  rwa [List.take_append_drop] at this

lemma findSub_none_not_at {p : Str} : ∀ {s : Str}, findSub p s = none →
    ∀ i, p.isPrefixOf (s.drop i) = false := by
  intro s
  induction s with
  | nil =>
    intro h i
    rw [findSub] at h
    by_cases hp : p = []
    · rw [if_pos hp] at h; exact Option.noConfusion h
    · cases p with
      | nil => exact absurd rfl hp
      | cons a as => simp [List.isPrefixOf]
  | cons c rest ih =>
    intro h i
    rw [findSub] at h
    by_cases hpre : p.isPrefixOf (c :: rest) = true
    · rw [if_pos hpre] at h; exact Option.noConfusion h
    · rw [if_neg hpre] at h
      cases i with
      | zero =>
        simpa using Bool.eq_false_iff.mpr hpre
      | succ i =>
        have hrest : findSub p rest = none := by
          rcases ho : findSub p rest with _ | j
          · rfl
          · rw [ho] at h; exact Option.noConfusion h
        simpa using ih hrest i

lemma findSub_min {p : Str} : ∀ {s : Str} {j : Nat}, findSub p s = some j →
    p.isPrefixOf (s.drop j) = true ∧ ∀ i, i < j → p.isPrefixOf (s.drop i) = false := by
  intro s
  induction s with
  | nil =>
    intro j h
    rw [findSub] at h
    by_cases hp : p = []
    · rw [if_pos hp] at h
      injection h with h
      subst h
      subst hp
      exact ⟨rfl, fun i hi => absurd hi (Nat.not_lt_zero i)⟩
    · rw [if_neg hp] at h; exact Option.noConfusion h
  | cons c rest ih =>
    intro j h
    rw [findSub] at h
    by_cases hpre : p.isPrefixOf (c :: rest) = true
    · rw [if_pos hpre] at h
      injection h with h
      subst h
      exact ⟨hpre, fun i hi => absurd hi (Nat.not_lt_zero i)⟩
    · rw [if_neg hpre] at h
      rcases ho : findSub p rest with _ | j'
      · rw [ho] at h; exact Option.noConfusion h
      · rw [ho] at h
        simp only [Option.map_some'] at h
        injection h with h
        subst h
        rcases ih ho with ⟨h1, h2⟩
        refine ⟨by simpa using h1, ?_⟩
        intro i hi
        cases i with
        | zero => simpa using Bool.eq_false_iff.mpr hpre
        | succ i => simpa using h2 i (Nat.lt_of_succ_lt_succ hi)

lemma findSub_eq_none {p : Str} : ∀ {s : Str},
    (∀ i, p.isPrefixOf (s.drop i) = false) → findSub p s = none := by
  intro s
  induction s with
  | nil =>
    intro h
    rw [findSub]
    by_cases hp : p = []
    · subst hp
      have := h 0
      simp [List.isPrefixOf] at this
    · rw [if_neg hp]
  | cons c rest ih =>
    intro h
    rw [findSub, if_neg (by simpa using Bool.eq_false_iff.mp (h 0)),
      ih (fun i => by simpa using h (i + 1))]
    rfl

lemma dropWhile_eq_drop (q : Char → Bool) : ∀ (z : Str),
    z.dropWhile q = z.drop ((z.takeWhile q).length) := by
  intro z
  induction z with
  | nil => rfl
  | cons c r ih =>
    by_cases hq : q c
    · simp [List.dropWhile_cons, List.takeWhile_cons, hq, ih]
    · simp [List.dropWhile_cons, List.takeWhile_cons, hq]

lemma takeWhile_eq_take (q : Char → Bool) : ∀ (z : Str),
    z.takeWhile q = z.take ((z.takeWhile q).length) := by
  intro z
  induction z with
  | nil => rfl
  | cons c r ih =>
    by_cases hq : q c
    · simp [List.takeWhile_cons, hq]
      exact ih
    · simp [List.takeWhile_cons, hq]

lemma takeWhile_append_stop {q : Char → Bool} {x : Char} (hx : q x = false) :
    ∀ (a b : Str), (a ++ x :: b).takeWhile q = a.takeWhile q := by
  intro a b
  induction a with
  | nil => simp [List.takeWhile_cons, hx]
  | cons c r ih =>
    by_cases hq : q c
    · simp [List.takeWhile_cons, hq, ih]
    · simp [List.takeWhile_cons, hq]

/-- `rstripPy` keeps an initial segment of its input, and what it removes is
all whitespace. -/
lemma rstrip_eq_take : ∀ (s : Str),
    rstripPy s = s.take (rstripPy s).length ∧
    (s.drop (rstripPy s).length).all pyIsSpace = true := by
  intro s
  induction s with
  | nil => exact ⟨rfl, rfl⟩
  | cons c r ih =>
    rcases ih with ⟨ih1, ih2⟩
    by_cases hl : rstripPy r = []
    · by_cases hc : pyIsSpace c
      · have he : rstripPy (c :: r) = [] := by
          rw [rstripPy]
          simp [hl, hc]
        refine ⟨by rw [he]; rfl, ?_⟩
        rw [he]
        simp only [List.length_nil, List.drop_zero, List.all_cons, hc, Bool.true_and]
        rw [hl] at ih2
        simpa using ih2
      · have he : rstripPy (c :: r) = [c] := by
          rw [rstripPy]
          simp [hl, hc]
        refine ⟨by rw [he]; rfl, ?_⟩
        rw [he]
        simp only [List.length_cons, List.length_nil, List.drop_succ_cons, List.drop_zero]
        rw [hl] at ih2
        simpa using ih2
    · have he : rstripPy (c :: r) = c :: rstripPy r := by
        rw [rstripPy]
        simp [hl]
      refine ⟨?_, ?_⟩
      · rw [he]
        simp only [List.length_cons, List.take_succ_cons]
        rw [← ih1]
      · rw [he]
        simp only [List.length_cons, List.drop_succ_cons]
        exact ih2

lemma take_isPrefixOf : ∀ (s : Str) (m : Nat), (s.take m).isPrefixOf s = true := by
  intro s
  induction s with
  | nil => intro m; cases m <;> rfl
  | cons c r ih =>
    intro m
    cases m with
    | zero => rfl
    | succ m => simp [List.take_succ_cons, List.isPrefixOf, ih]

/-- `cleaned_msg` keeps an initial segment of the message ending no later
than the first occurrence of the footer marker. -/
lemma cleaned_eq_take (msg : Str) : ∃ K, cleaned_msg msg = msg.take K ∧
    (∀ j, findSub evMark msg = some j → K ≤ j) := by
  rcases hf : findSub evMark msg with _ | j
  · refine ⟨msg.length, ?_, fun j hj => Option.noConfusion hj⟩
    simp only [cleaned_msg, hf, List.take_length]
  · by_cases hc : j ≠ 0 ∧ msg.get? (j - 1) = some '\n'
    · refine ⟨j - 1, ?_, fun j' hj' => ?_⟩
      · simp only [cleaned_msg, hf, if_pos hc]
      · injection hj' with he
        omega
    · refine ⟨j, ?_, fun j' hj' => ?_⟩
      · simp only [cleaned_msg, hf, if_neg hc]
      · injection hj' with he
        omega

lemma no_mark_of_take {msg p : Str} {j M : Nat} (hp : p ≠ []) (hM : M ≤ j)
    (hmin : ∀ i, i < j → p.isPrefixOf (msg.drop i) = false) :
    ∀ i, p.isPrefixOf ((msg.take M).drop i) = false := by
  intro i
  by_cases hi : i < M
  · rw [List.drop_take]
    by_cases hh : p.isPrefixOf ((msg.drop i).take (M - i)) = true
    · exact absurd (isPrefixOf_of_take hh) (by rw [hmin i (Nat.lt_of_lt_of_le hi hM)]; simp)
    · exact Bool.eq_false_iff.mpr hh
  · have hnil : (msg.take M).drop i = [] := by
      apply List.drop_eq_nil_of_le
      calc (msg.take M).length ≤ M := by simp [List.length_take]
        _ ≤ i := Nat.le_of_not_lt hi
    rw [hnil]
    cases p with
    | nil => exact absurd rfl hp
    | cons a as => rfl

/-- The kept part of the message (`cleaned` then `rstrip`) contains no
occurrence of the footer marker. -/
lemma rstrip_cleaned_no_mark (msg : Str) :
    findSub evMark (rstripPy (cleaned_msg msg)) = none := by
  rcases cleaned_eq_take msg with ⟨K, hK, hKj⟩
  rw [hK]
  have hr := (rstrip_eq_take (msg.take K)).1
  rw [List.take_take] at hr
  rw [hr]
  apply findSub_eq_none
  rcases hf : findSub evMark msg with _ | j
  · intro i
    by_cases hh : evMark.isPrefixOf
        ((msg.take (min (rstripPy (msg.take K)).length K)).drop i) = true
    · rw [List.drop_take] at hh
      have h2 := isPrefixOf_of_take hh
      rw [findSub_none_not_at hf i] at h2
      exact Bool.noConfusion h2
    · exact Bool.eq_false_iff.mpr hh
  · exact no_mark_of_take (by decide) (Nat.le_trans (Nat.min_le_right _ _) (hKj j hf))
      (findSub_min hf).2

/-- **C2 (counterexample).** The claim says embed removes only prior footer
lines and preserves base-message text that follows them. On the base message
`"hello\nGit-EVTag-v0-SHA512: abc\nworld"` the code (re.sub with `re.DOTALL`
and a greedy `.*`) also deletes the trailing `"world"`: the result is exactly
`"hello\n\nGit-EVTag-v0-SHA512: d\n"` and contains no occurrence of
`"world"`. -/
theorem c2_counterexample :
    final_tag_message "hello\nGit-EVTag-v0-SHA512: abc\nworld".data ['d'] =
      "hello\n\nGit-EVTag-v0-SHA512: d\n".data ∧
    findSub "world".data
      (final_tag_message "hello\nGit-EVTag-v0-SHA512: abc\nworld".data ['d']) = none :=
  ⟨by decide, by decide⟩

/-- **C2 (amended).** `embed` keeps exactly an initial segment of the base
message — everything before the first occurrence of the footer marker
(including the newline just before it, if any), with trailing whitespace
stripped — and appends a blank line then the single new footer line. The
kept prefix contains no footer marker; when the base message contains no
marker at all, only trailing whitespace is removed from it. Text following a
prior footer line is *not* preserved. -/
theorem c2_amended_embed (msg csum : Str) :
    final_tag_message msg csum =
      rstripPy (cleaned_msg msg) ++ '\n' :: '\n' :: (evMark ++ csum ++ ['\n']) ∧
    (rstripPy (cleaned_msg msg)).isPrefixOf msg = true ∧
    findSub evMark (rstripPy (cleaned_msg msg)) = none ∧
    (findSub evMark msg = none →
      (msg.drop (rstripPy (cleaned_msg msg)).length).all pyIsSpace = true) := by
  refine ⟨rfl, ?_, rstrip_cleaned_no_mark msg, ?_⟩
  · rcases cleaned_eq_take msg with ⟨K, hK, _⟩
    rw [hK]
    have hr := (rstrip_eq_take (msg.take K)).1
    rw [List.take_take] at hr
    rw [hr]
    exact take_isPrefixOf msg _
  · intro hf
    have hcl : cleaned_msg msg = msg := by simp only [cleaned_msg, hf]
    rw [hcl]
    exact (rstrip_eq_take msg).2

/-- Witness for the amended C2 on a message without a prior footer. -/
theorem c2_amended_embed_witness :
    final_tag_message "base ".data "abc".data =
      rstripPy (cleaned_msg "base ".data) ++ '\n' :: '\n' :: (evMark ++ "abc".data ++ ['\n']) ∧
    (rstripPy (cleaned_msg "base ".data)).isPrefixOf "base ".data = true ∧
    findSub evMark (rstripPy (cleaned_msg "base ".data)) = none ∧
    ("base ".data.drop (rstripPy (cleaned_msg "base ".data)).length).all pyIsSpace = true := by
  have h := c2_amended_embed "base ".data "abc".data
  exact ⟨h.1, h.2.1, h.2.2.1, h.2.2.2 (by decide)⟩

/-! ### splitlines equations and the footer-extraction lemma -/

lemma splitlines_crlf (r : Str) : splitlinesPy ('\x0d' :: '\n' :: r) = [] :: splitlinesPy r := rfl

lemma splitlines_cr_cons {d : Char} {r : Str} (hd : d ≠ '\n') :
    splitlinesPy ('\x0d' :: d :: r) = [] :: splitlinesPy (d :: r) := by
  rw [splitlinesPy.eq_4 _ d r (fun h => hd h), if_pos rfl]

lemma splitlines_break {c : Char} {r : Str} (hc : c ≠ '\x0d') (hb : isLineBreak c = true) :
    splitlinesPy (c :: r) = [] :: splitlinesPy r := by
  cases r with
  | nil => rw [splitlinesPy.eq_3, if_neg hc, if_pos hb]
  | cons d r2 =>
    by_cases hd : d = '\n'
    · subst hd
      rw [splitlinesPy.eq_2, if_neg hc, if_pos hb]
    · rw [splitlinesPy.eq_4 c d r2 (fun h => hd h), if_neg hc, if_pos hb]

lemma splitlines_nonbreak {c : Char} {r : Str} (hb : isLineBreak c = false) :
    splitlinesPy (c :: r) = splitHead c (splitlinesPy r) := by
  have hc : c ≠ '\x0d' := by
    intro he
    rw [he] at hb
    exact absurd hb (by decide)
  have hb' : ¬ (isLineBreak c = true) := by simp [hb]
  cases r with
  | nil => rw [splitlinesPy.eq_3, if_neg hc, if_neg hb']
  | cons d r2 =>
    by_cases hd : d = '\n'
    · subst hd
      rw [splitlinesPy.eq_2, if_neg hc, if_neg hb']
    · rw [splitlinesPy.eq_4 c d r2 (fun h => hd h), if_neg hc, if_neg hb']

/-- Lines of a break-free string followed by one terminator. -/
lemma lines_breakfree : ∀ (L : Str), L.all (fun ch => !(isLineBreak ch)) = true →
    splitlinesPy (L ++ ['\n']) = [L] := by
  intro L
  induction L with
  | nil => intro _; rfl
  | cons c r ih =>
    intro h
    simp only [List.all_cons, Bool.and_eq_true, Bool.not_eq_true'] at h
    rw [List.cons_append, splitlines_nonbreak h.1, ih (by
      simpa only [List.all_eq_true, Bool.not_eq_true'] using
        (List.all_eq_true.mp h.2))]
    rfl

/-- A non-empty string's first line is its maximal break-free initial run. -/
lemma splitlines_head : ∀ (y : Str), y ≠ [] →
    ∃ ls, splitlinesPy y = (y.takeWhile (fun ch => !(isLineBreak ch))) :: ls := by
  intro y
  induction y with
  | nil => intro h; exact absurd rfl h
  | cons c r ih =>
    intro _
    by_cases hbr : isLineBreak c = true
    · have htw : (c :: r).takeWhile (fun ch => !(isLineBreak ch)) = [] := by
        simp [List.takeWhile_cons, hbr]
      rw [htw]
      by_cases hcr : c = '\x0d'
      · subst hcr
        cases r with
        | nil => exact ⟨[], rfl⟩
        | cons d r2 =>
          by_cases hd : d = '\n'
          · subst hd
            exact ⟨splitlinesPy r2, splitlines_crlf r2⟩
          · exact ⟨splitlinesPy (d :: r2), splitlines_cr_cons hd⟩
      · exact ⟨splitlinesPy r, splitlines_break hcr hbr⟩
    · have hb' : isLineBreak c = false := Bool.eq_false_iff.mpr hbr
      rw [splitlines_nonbreak hb']
      have htw : (c :: r).takeWhile (fun ch => !(isLineBreak ch)) =
          c :: r.takeWhile (fun ch => !(isLineBreak ch)) := by
        simp [List.takeWhile_cons, hb']
      rw [htw]
      cases r with
      | nil => exact ⟨[], rfl⟩
      | cons d r2 =>
        rcases ih (List.cons_ne_nil d r2) with ⟨ls, hls⟩
        rw [hls]
        exact ⟨ls, rfl⟩

/-- Stripping a prefix of a marker-free string cannot create a marker. -/
lemma no_mark_strip_take {pre : Str} (hno : ∀ i, evMark.isPrefixOf (pre.drop i) = false)
    (k : Nat) : evMark.isPrefixOf (pyStrip (pre.take k)) = false := by
  by_cases hh : evMark.isPrefixOf (pyStrip (pre.take k)) = true
  · exfalso
    unfold pyStrip lstripPy at hh
    rw [dropWhile_eq_drop] at hh
    have hr := (rstrip_eq_take (pre.take k)).1
    rw [hr, List.take_take, List.drop_take] at hh
    have h2 := isPrefixOf_of_take hh
    rw [hno _] at h2
    exact Bool.noConfusion h2
  · exact Bool.eq_false_iff.mpr hh

lemma hex_not_space {c : Char} (h : isHexChar c = true) : pyIsSpace c = false := by
  by_cases hw : pyIsSpace c = true
  · exfalso
    simp only [pyIsSpace, Bool.or_eq_true, decide_eq_true_eq] at hw
    rcases hw with ((((h1 | h1) | h1) | h1) | h1) | h1 <;> subst h1 <;>
      exact absurd h (by decide)
  · exact Bool.eq_false_iff.mpr hw

lemma hex_not_break {c : Char} (h : isHexChar c = true) : isLineBreak c = false := by
  by_cases hw : isLineBreak c = true
  · exfalso
    simp only [isLineBreak, Bool.or_eq_true, decide_eq_true_eq] at hw
    rcases hw with ((((((((h1 | h1) | h1) | h1) | h1) | h1) | h1) | h1) | h1) | h1 <;>
      subst h1 <;> exact absurd h (by decide)
  · exact Bool.eq_false_iff.mpr hw

lemma lstrip_head_not_space {c : Char} {r : Str} (h : pyIsSpace c = false) :
    lstripPy (c :: r) = c :: r := by
  simp [lstripPy, List.dropWhile_cons, h]

lemma rstrip_append_last {xs : Str} {c : Char} (h : pyIsSpace c = false) :
    rstripPy (xs ++ [c]) = xs ++ [c] := by
  induction xs with
  | nil => simp [rstripPy, h]
  | cons x xs ih =>
    rw [List.cons_append, rstripPy, ih, if_neg (by simp)]

/-- A non-empty all-hex string survives `strip()` unchanged. -/
lemma strip_hex {csum : Str} (h1 : csum ≠ []) (h2 : csum.all isHexChar = true) :
    pyStrip csum = csum := by
  rcases (List.eq_nil_or_concat csum).resolve_left h1 with ⟨ys, y, rfl⟩
  rw [List.concat_eq_append] at h2 ⊢
  have hy : isHexChar y = true := by
    have := List.all_eq_true.mp h2 y (by simp)
    simpa using this
  have hr : rstripPy (ys ++ [y]) = ys ++ [y] := rstrip_append_last (hex_not_space hy)
  unfold pyStrip
  rw [hr]
  cases ys with
  | nil => exact lstrip_head_not_space (hex_not_space hy)
  | cons h0 ys' =>
    have hh0 : isHexChar h0 = true := by
      have := List.all_eq_true.mp h2 h0 (by simp)
      simpa using this
    exact lstrip_head_not_space (hex_not_space hh0)

lemma findLine_cons_pos {a : Str} (l : List Str)
    (h : evMark.isPrefixOf (pyStrip a) = true) :
    List.find? (fun line => evMark.isPrefixOf (pyStrip line)) (a :: l) = some a :=
  List.find?_cons_of_pos l h

lemma findLine_cons_neg {a : Str} (l : List Str)
    (h : evMark.isPrefixOf (pyStrip a) = false) :
    List.find? (fun line => evMark.isPrefixOf (pyStrip line)) (a :: l) =
      List.find? (fun line => evMark.isPrefixOf (pyStrip line)) l :=
  List.find?_cons_of_neg l (by simp [h])

/-- Footer search on the assembled footer alone: the two blank-line entries
do not match, the footer line does. -/
lemma find_footer_base (L : Str) (hL : L.all (fun ch => !(isLineBreak ch)) = true)
    (htest : evMark.isPrefixOf (pyStrip L) = true) :
    (splitlinesPy ('\n' :: '\n' :: (L ++ ['\n']))).find?
      (fun line => evMark.isPrefixOf (pyStrip line)) = some L := by
  rw [splitlines_break (by decide) (by decide), splitlines_break (by decide) (by decide),
    lines_breakfree L hL]
  rw [findLine_cons_neg _ (by decide), findLine_cons_neg _ (by decide),
    findLine_cons_pos _ htest]

/-- Footer search on a marker-free body followed by the blank line and the
footer line: the footer line is found, whatever the body contains. -/
lemma find_footer_aux (L : Str) (hL : L.all (fun ch => !(isLineBreak ch)) = true)
    (htest : evMark.isPrefixOf (pyStrip L) = true) :
    ∀ (n : Nat) (pre : Str), pre.length ≤ n →
      (∀ i, evMark.isPrefixOf (pre.drop i) = false) →
      (splitlinesPy (pre ++ '\n' :: '\n' :: (L ++ ['\n']))).find?
        (fun line => evMark.isPrefixOf (pyStrip line)) = some L := by
  intro n
  induction n with
  | zero =>
    intro pre hlen hno
    have hnil : pre = [] := List.eq_nil_of_length_eq_zero (Nat.le_zero.mp hlen)
    subst hnil
    simpa using find_footer_base L hL htest
  | succ n ih =>
    intro pre hlen hno
    cases pre with
    | nil => simpa using find_footer_base L hL htest
    | cons c pre' =>
      have hno' : ∀ i, evMark.isPrefixOf (pre'.drop i) = false := fun i => hno (i + 1)
      rw [List.cons_append]
      by_cases hcr : c = '\x0d'
      · subst hcr
        cases pre' with
        | nil =>
          rw [List.nil_append, splitlines_crlf,
            splitlines_break (by decide) (by decide), lines_breakfree L hL]
          rw [findLine_cons_neg _ (by decide), findLine_cons_neg _ (by decide),
            findLine_cons_pos _ htest]
        | cons d pre'' =>
          by_cases hd : d = '\n'
          · subst hd
            rw [List.cons_append, splitlines_crlf]
            rw [findLine_cons_neg _ (by decide)]
            exact ih pre'' (by simp at hlen; omega) (fun i => by simpa using hno (i + 2))
          · rw [List.cons_append, splitlines_cr_cons hd, ← List.cons_append]
            rw [findLine_cons_neg _ (by decide)]
            exact ih (d :: pre'') (by simp at hlen ⊢; omega) hno'
      · by_cases hbr : isLineBreak c = true
        · rw [splitlines_break hcr hbr]
          rw [findLine_cons_neg _ (by decide)]
          exact ih pre' (by simp at hlen; omega) hno'
        · have hbf : isLineBreak c = false := Bool.eq_false_iff.mpr hbr
          rw [splitlines_nonbreak hbf]
          have hne : pre' ++ '\n' :: '\n' :: (L ++ ['\n']) ≠ [] := by simp
          rcases splitlines_head _ hne with ⟨ls, hls⟩
          have htw : (pre' ++ '\n' :: '\n' :: (L ++ ['\n'])).takeWhile
              (fun ch => !(isLineBreak ch)) =
              pre'.takeWhile (fun ch => !(isLineBreak ch)) :=
            takeWhile_append_stop (by decide) pre' _
          rw [htw] at hls
          have hih := ih pre' (by simp at hlen; omega) hno'
          rw [hls] at hih
          have htwtest : evMark.isPrefixOf
              (pyStrip (pre'.takeWhile (fun ch => !(isLineBreak ch)))) = false := by
            rw [takeWhile_eq_take]
            exact no_mark_strip_take hno' _
          rw [findLine_cons_neg _ htwtest] at hih
          have hcons : c :: pre'.takeWhile (fun ch => !(isLineBreak ch)) =
              (c :: pre').take ((pre'.takeWhile (fun ch => !(isLineBreak ch))).length + 1) := by
            rw [List.take_succ_cons, ← takeWhile_eq_take]
          have hctest : evMark.isPrefixOf
              (pyStrip (c :: pre'.takeWhile (fun ch => !(isLineBreak ch)))) = false := by
            rw [hcons]
            exact no_mark_strip_take hno _
          rw [hls]
          show ((c :: pre'.takeWhile (fun ch => !(isLineBreak ch))) :: ls).find?
            (fun line => evMark.isPrefixOf (pyStrip line)) = some L
          rw [findLine_cons_neg _ hctest]
          exact hih

/-- **C3.** Round trip: extracting the checksum from the tag message produced
by embedding a digest (any non-empty hex string) into any base message
returns exactly that digest. -/
theorem c3_roundtrip (msg csum : Str) (h1 : csum ≠ []) (h2 : csum.all isHexChar = true) :
    extract_checksum_from_tag (final_tag_message msg csum) = some csum := by
  have hnomark : ∀ i, evMark.isPrefixOf ((rstripPy (cleaned_msg msg)).drop i) = false :=
    findSub_none_not_at (rstrip_cleaned_no_mark msg)
  have hstrip : pyStrip (evMark ++ csum) = evMark ++ csum := by
    rcases (List.eq_nil_or_concat csum).resolve_left h1 with ⟨ys, y, rfl⟩
    rw [List.concat_eq_append] at h2 ⊢
    have hy : isHexChar y = true := by
      have := List.all_eq_true.mp h2 y (by simp)
      simpa using this
    unfold pyStrip
    rw [← List.append_assoc, rstrip_append_last (hex_not_space hy), List.append_assoc]
    exact lstrip_head_not_space (by decide)
  have htest : evMark.isPrefixOf (pyStrip (evMark ++ csum)) = true := by
    rw [hstrip]
    exact isPrefixOf_append_right csum (isPrefixOf_self evMark)
  have hL : (evMark ++ csum).all (fun ch => !(isLineBreak ch)) = true := by
    rw [List.all_append, Bool.and_eq_true]
    refine ⟨by decide, ?_⟩
    rw [List.all_eq_true] at h2 ⊢
    intro x hx
    simpa using hex_not_break (by simpa using h2 x hx)
  have hshape : final_tag_message msg csum =
      rstripPy (cleaned_msg msg) ++ '\n' :: '\n' :: ((evMark ++ csum) ++ ['\n']) := by
    unfold final_tag_message
    simp [List.append_assoc]
  have hfind := find_footer_aux (evMark ++ csum) hL htest
    (rstripPy (cleaned_msg msg)).length (rstripPy (cleaned_msg msg)) le_rfl hnomark
  have hrest : pySplitOnceRest evMark (evMark ++ csum) = some csum := by
    unfold pySplitOnceRest
    have hp : evMark.isPrefixOf (evMark ++ csum) = true :=
      isPrefixOf_append_right csum (isPrefixOf_self evMark)
    have hfs : findSub evMark (evMark ++ csum) = some 0 := by
      cases hev : evMark ++ csum with
      | nil =>
        have := congrArg List.length hev
        simp [evMark] at this
      | cons a as =>
        rw [hev] at hp
        rw [show findSub evMark (a :: as) =
          (if evMark.isPrefixOf (a :: as) = true then some 0
           else (findSub evMark as).map (· + 1)) from rfl]
        rw [if_pos hp]
    rw [hfs]
    simp only [Option.map_some', Nat.zero_add]
    rw [List.drop_left]
  unfold extract_checksum_from_tag
  rw [hshape, hfind]
  show some (pyStrip ((pySplitOnceRest evMark (evMark ++ csum)).getD (evMark ++ csum))) =
    some csum
  rw [hrest]
  simp only [Option.getD_some]
  exact congrArg some (strip_hex h1 h2)

/-- Witness for C3 at a concrete base message (containing a prior footer)
and digest. -/
theorem c3_roundtrip_witness :
    extract_checksum_from_tag
      (final_tag_message "msg\nGit-EVTag-v0-SHA512: old\ntail".data "0a1b2c".data) =
      some "0a1b2c".data :=
  c3_roundtrip "msg\nGit-EVTag-v0-SHA512: old\ntail".data "0a1b2c".data
    (by decide) (by decide)

/-! ### Lemmas for the commit first-line parse (C6) -/

lemma isPrefixOf_exists {p : Str} : ∀ {s : Str}, p.isPrefixOf s = true → ∃ t, s = p ++ t := by
  induction p with
  | nil => exact fun {s} _ => ⟨s, rfl⟩
  | cons a as ih =>
    intro s h
    cases s with
    | nil => simp [List.isPrefixOf] at h
    | cons b bs =>
      simp only [List.isPrefixOf, Bool.and_eq_true, beq_iff_eq] at h
      rcases ih h.2 with ⟨t, ht⟩
      exact ⟨t, by rw [List.cons_append, ← h.1, ht]⟩

lemma lstrip_nil_all : ∀ {s : Str}, lstripPy s = [] → s.all pyIsSpace = true := by
  intro s
  induction s with
  | nil => intro _; rfl
  | cons c r ih =>
    intro h
    by_cases hc : pyIsSpace c = true
    · rw [lstripPy, List.dropWhile_cons, if_pos hc] at h
      simp only [List.all_cons, hc, Bool.true_and]
      exact ih h
    · rw [lstripPy, List.dropWhile_cons, if_neg hc] at h
      exact List.noConfusion h

lemma rstrip_nil_of_all : ∀ {s : Str}, s.all pyIsSpace = true → rstripPy s = [] := by
  intro s
  induction s with
  | nil => intro _; rfl
  | cons c r ih =>
    intro h
    simp only [List.all_cons, Bool.and_eq_true] at h
    rw [rstripPy, ih h.2]
    simp [h.1]

lemma lstrip_cons_pos {c : Char} {r : Str} (hc : pyIsSpace c = true) :
    lstripPy (c :: r) = lstripPy r := by
  rw [lstripPy, List.dropWhile_cons, if_pos hc]
  rfl

lemma lstrip_cons_neg {c : Char} {r : Str} (hc : ¬ pyIsSpace c = true) :
    lstripPy (c :: r) = c :: r := by
  rw [lstripPy, List.dropWhile_cons, if_neg hc]

lemma rstrip_cons_nil {c : Char} {r : Str} (hr : rstripPy r = []) :
    rstripPy (c :: r) = (if pyIsSpace c then [] else [c]) := by
  rw [rstripPy, hr, if_pos rfl]

lemma rstrip_cons_ne {c : Char} {r : Str} (hr : rstripPy r ≠ []) :
    rstripPy (c :: r) = c :: rstripPy r := by
  rw [rstripPy, if_neg hr]

lemma lstrip_idem : ∀ (s : Str), lstripPy (lstripPy s) = lstripPy s := by
  intro s
  induction s with
  | nil => rfl
  | cons c r ih =>
    by_cases hc : pyIsSpace c = true
    · rw [lstrip_cons_pos hc, ih]
    · rw [lstrip_cons_neg hc, lstrip_cons_neg hc]

lemma rstrip_lstrip_comm : ∀ (s : Str), rstripPy (lstripPy s) = lstripPy (rstripPy s) := by
  intro s
  induction s with
  | nil => rfl
  | cons c r ih =>
    by_cases hc : pyIsSpace c = true
    · rw [lstrip_cons_pos hc, ih]
      by_cases hr : rstripPy r = []
      · rw [hr, rstrip_cons_nil hr, if_pos hc]
      · rw [rstrip_cons_ne hr, lstrip_cons_pos hc]
    · rw [lstrip_cons_neg hc]
      by_cases hr : rstripPy r = []
      · rw [rstrip_cons_nil hr, if_neg hc, lstrip_cons_neg hc]
      · rw [rstrip_cons_ne hr, lstrip_cons_neg hc]

lemma pyStrip_lstrip (s : Str) : pyStrip (lstripPy s) = pyStrip s := by
  unfold pyStrip
  rw [← rstrip_lstrip_comm, ← rstrip_lstrip_comm, lstrip_idem]

/-- **C6 (counterexample).** Two failures of the claim as stated. (1) A
fetched commit whose content is exactly `"tree "` has a first line starting
with `"tree "`, so the claim says the trimmed remainder (the empty string)
is returned; the code instead raises `IndexError` in
`lines[0].split(None, 1)[1]`. (2) A fetched object of kind `"tag"` is
neither commit nor tree nor blob; the claim's "any other kind returns
nothing" predicts a `none` result, but the code raises `KeyError` in the
statistics update. -/
theorem c6_counterexample :
    checksum_object degenerateCommitFetch ChecksumProcessor.init ['c'] =
      .error (.indexFail,
        { stats := [("commit".data, 1), ("tree".data, 0), ("blob".data, 0),
                    ("commitbytes".data, 9), ("treebytes".data, 0), ("blobbytes".data, 0)],
          csum := [99, 111, 109, 109, 105, 116, 32, 53, 0] }) ∧
    checksum_object tagKindFetch ChecksumProcessor.init ['t'] =
      .error (.keyError,
        { stats := [("commit".data, 0), ("tree".data, 0), ("blob".data, 0),
                    ("commitbytes".data, 0), ("treebytes".data, 0), ("blobbytes".data, 0)],
          csum := [116, 97, 103, 32, 51, 0] }) :=
  ⟨by decide, by decide⟩

/-- **C6 (amended).** For a fetched commit with ASCII content: when the first
line starts with `"tree "` *and* its trimmed remainder is non-empty,
`checksum_object` returns that trimmed remainder as the tree id; when the
first line does not start with `"tree "`, it fails with
`MalformedObjectError`. (A first line of `"tree "` followed by whitespace
only instead raises an unhandled `IndexError`, and content that is not
ASCII fails the decode — the counterexample's first part.) For a fetched
object of kind `tree` or `blob`, `checksum_object` returns nothing; kinds
outside `{commit, tree, blob}` fail with the statistics `KeyError` (the
counterexample's second part, proved in general for C10). -/
theorem c6_amended_commit_parse (f : FetchFn) (cp : ChecksumProcessor) (objId : Str)
    (L : Nat) (C : Bytes)
    (hid : objId ≠ []) (hkeys : statKeys cp = initKeys) :
    (∀ (chars l0 : Str) (lrest : List Str), f objId = .ok ("commit".data, L, C) →
      decodeAscii C = some chars → pySplitNl chars = l0 :: lrest →
      (("tree ".data.isPrefixOf l0 = true → pyStrip (l0.drop 5) ≠ [] →
        ∃ cp', checksum_object f cp objId = .ok (cp', some (pyStrip (l0.drop 5)))) ∧
       ("tree ".data.isPrefixOf l0 = false →
        ∃ cp', checksum_object f cp objId = .error (.malformedCommit, cp')))) ∧
    (∀ k, f objId = .ok (k, L, C) → (k = "tree".data ∨ k = "blob".data) →
      ∃ cp', checksum_object f cp objId = .ok (cp', none)) := by
  constructor
  · intro chars l0 lrest hf hdec hsplit
    constructor
    · intro ht htne
      rcases isPrefixOf_exists ht with ⟨tl, rfl⟩
      obtain ⟨cp1, hu1, hc1, hk1⟩ :=
        update_ok_of_key cp ("commit".data)
          (headerBytes ("commit".data) L) (by rw [hkeys]; decide)
      obtain ⟨cp2, hi, hc2, hk2⟩ :=
        increment_ok_of_key cp1 ("commit".data) (by rw [hk1, hkeys]; decide)
      obtain ⟨cp3, hu2, hc3, hk3⟩ :=
        update_ok_of_key cp2 ("commit".data) C (by rw [hk2, hk1, hkeys]; decide)
      have hlne : lstripPy tl ≠ [] := by
        intro hn
        apply htne
        have hr0 := rstrip_nil_of_all (lstrip_nil_all hn)
        rw [show ("tree ".data ++ tl).drop 5 = tl from rfl]
        unfold pyStrip
        rw [hr0]
        rfl
      refine ⟨cp3, ?_⟩
      have hsw : splitWhiteOnce ("tree ".data ++ tl) = some ("tree".data, lstripPy tl) := by
        rw [show splitWhiteOnce ("tree ".data ++ tl) =
          (if lstripPy tl = [] then none else some ("tree".data, lstripPy tl)) from rfl,
          if_neg hlne]
      unfold checksum_object
      rw [if_neg hid]
      simp only [hf, hu1, hi, if_true]
      simp only [hdec, hsplit]
      rw [if_pos ht]
      simp only [hsw, hu2]
      rw [show ("tree ".data ++ tl).drop 5 = tl from rfl, ← pyStrip_lstrip tl]
    · intro ht
      obtain ⟨cp1, hu1, hc1, hk1⟩ :=
        update_ok_of_key cp ("commit".data)
          (headerBytes ("commit".data) L) (by rw [hkeys]; decide)
      obtain ⟨cp2, hi, hc2, hk2⟩ :=
        increment_ok_of_key cp1 ("commit".data) (by rw [hk1, hkeys]; decide)
      refine ⟨cp2, ?_⟩
      unfold checksum_object
      rw [if_neg hid]
      simp only [hf, hu1, hi, if_true]
      simp only [hdec, hsplit]
      rw [if_neg (by simp [ht])]
  · intro k hf hk
    rcases hk with rfl | rfl
    · obtain ⟨cp', h1, _, _⟩ := checksum_object_ok_plain hid hf (by decide)
        (by rw [hkeys]; decide) (by rw [hkeys]; decide)
      exact ⟨cp', h1⟩
    · obtain ⟨cp', h1, _, _⟩ := checksum_object_ok_plain hid hf (by decide)
        (by rw [hkeys]; decide) (by rw [hkeys]; decide)
      exact ⟨cp', h1⟩

/-- Witness for the amended C6: a well-formed commit yields the tree id
`"abc"`, a commit without a `"tree "` first line fails with
`MalformedObjectError`, and a blob yields no tree id. -/
theorem c6_amended_commit_parse_witness :
    (checksum_object c6CommitFetch ChecksumProcessor.init ['c']).map Prod.snd =
      .ok (some "abc".data) ∧
    (checksum_object c6BadCommitFetch ChecksumProcessor.init ['d']).mapError Prod.fst =
      .error .malformedCommit ∧
    (checksum_object blobHelloFetch ChecksumProcessor.init ['b']).map Prod.snd =
      .ok none := by
  refine ⟨?_, ?_, ?_⟩
  · obtain ⟨cp', h⟩ := ((c6_amended_commit_parse c6CommitFetch ChecksumProcessor.init ['c']
        12 [116, 114, 101, 101, 32, 97, 98, 99, 10, 120, 121, 122]
        (by decide) (by decide)).1
      ("tree abc\nxyz".data) ("tree abc".data) ["xyz".data]
      (by decide) (by decide) (by decide)).1 (by decide) (by decide)
    rw [h]
    rfl
  · obtain ⟨cp', h⟩ := ((c6_amended_commit_parse c6BadCommitFetch ChecksumProcessor.init ['d']
        10 [112, 97, 114, 101, 110, 116, 32, 97, 98, 99]
        (by decide) (by decide)).1
      ("parent abc".data) ("parent abc".data) []
      (by decide) (by decide) (by decide)).2 (by decide)
    rw [h]
    rfl
  · obtain ⟨cp', h⟩ := (c6_amended_commit_parse blobHelloFetch ChecksumProcessor.init ['b']
        6 [104, 101, 108, 108, 111, 10] (by decide) (by decide)).2
      ("blob".data) (by decide) (Or.inr rfl)
    rw [h]
    rfl

/-- Witness for C9: the duplicate-blob fixture with two different mode
columns walks to the same result. -/
theorem c9_mode_not_in_digest_witness :
    checksum_tree dupEnvTwo 3 [] [] ChecksumProcessor.init ['T'] =
      checksum_tree dupEnvTwoModes 3 [] [] ChecksumProcessor.init ['T'] := by
  refine (c9_mode_not_in_digest dupEnvTwo dupEnvTwoModes (fun r => rfl) ?_ 3 [] []
    ChecksumProcessor.init ['T']).2
  intro r i
  by_cases h : i = ['T']
  · simp only [dupEnvTwo, dupEnvTwoModes, if_pos h]
    exact .cons ⟨rfl, rfl, rfl⟩ (.cons ⟨rfl, rfl, rfl⟩ .nil)
  · simp only [dupEnvTwo, dupEnvTwoModes, if_neg h]
    exact .nil

end GitEvtag
